import Mathlib

/-!
Verification of the sigma-rust ErgoTree IR fragment: type system, value
model, constants, the canonical binary codec and the evaluator rules for
the nodes present in the repository (And, Or, Upcast, MethodCall,
Constant), together with the JSON constant-decoding glue.

Byte strings are modelled as `List Nat` with every byte `< 256`; machine
integers are modelled as `Int`/`Nat` with explicit two's-complement
reinterpretation where the code performs an `as` cast.
-/

/-- Modelled from the spec (the serializer primitives `put_u32`/`get_u32`
and the compact integer encoding are not under src/): "Integers use a
compact variable-length encoding" — little-endian base-128 groups, the
high bit of a byte marking continuation. -/
def vlqEncode (n : Nat) : List Nat :=
  if h : n < 128 then [n] else (n % 128 + 128) :: vlqEncode (n / 128)
decreasing_by exact Nat.div_lt_self (by omega) (by omega)

/-- Modelled from the spec: decoder for the compact variable-length
encoding, consuming a prefix of the byte string and returning the tail. -/
def vlqDecode : List Nat → Option (Nat × List Nat)
  | [] => none
  | b :: bs =>
    if b < 128 then some (b, bs)
    else
      match vlqDecode bs with
      | some (m, rest) => some (m * 128 + (b - 128), rest)
      | none => none

/-- Every byte emitted by the compact variable-length encoding is < 256. -/
theorem vlqEncode_lt (n : Nat) : ∀ b ∈ vlqEncode n, b < 256 := by
  induction n using Nat.strong_induction_on with
  | _ n ih =>
    rw [vlqEncode]
    by_cases h : n < 128
    · rw [dif_pos h]
      intro b hb
      simp only [List.mem_singleton] at hb
      omega
    · rw [dif_neg h]
      intro b hb
      rcases List.mem_cons.mp hb with h1 | h2
      · have := Nat.mod_lt n (y := 128) (by omega)
        omega
      · exact ih (n / 128) (Nat.div_lt_self (by omega) (by omega)) b h2

/-- Round-trip for the compact variable-length integer encoding. -/
theorem vlqDecode_encode (n : Nat) : ∀ rest : List Nat,
    vlqDecode (vlqEncode n ++ rest) = some (n, rest) := by
  induction n using Nat.strong_induction_on with
  | _ n ih =>
    intro rest
    rw [vlqEncode]
    by_cases h : n < 128
    · rw [dif_pos h]
      simp [vlqDecode, h]
    · rw [dif_neg h]
      have hb : ¬ (n % 128 + 128 < 128) := by omega
      have ihv := ih (n / 128) (Nat.div_lt_self (by omega) (by omega)) rest
      simp only [List.cons_append, vlqDecode, hb, if_false, List.append_eq, ihv]
      have hrec : n / 128 * 128 + (n % 128 + 128 - 128) = n := by
        have := Nat.div_add_mod n 128
        omega
      rw [hrec]

/-- Modelled from the spec: zigzag mapping of a signed integer to the
unsigned integer fed to the variable-length encoding. -/
def zigzag (v : Int) : Nat :=
  if 0 ≤ v then (2 * v).toNat else (-(2 * v) - 1).toNat

/-- Modelled from the spec: inverse of the zigzag mapping. -/
def unzigzag (n : Nat) : Int :=
  if n % 2 = 0 then ((n / 2 : Nat) : Int) else -((n / 2 : Nat) : Int) - 1

theorem unzigzag_zigzag (v : Int) : unzigzag (zigzag v) = v := by
  unfold zigzag unzigzag
  by_cases h : 0 ≤ v
  · rw [if_pos h]
    have h2 : (2 * v).toNat = 2 * v.toNat := by omega
    rw [h2, if_pos (by omega : 2 * v.toNat % 2 = 0)]
    have h5 : 2 * v.toNat / 2 = v.toNat := by omega
    rw [h5]
    omega
  · rw [if_neg h]
    have h2 : (-(2 * v) - 1).toNat = 2 * (-v).toNat - 1 := by omega
    have h3 : 1 ≤ (-v).toNat := by omega
    rw [h2, if_neg (by omega : ¬ (2 * (-v).toNat - 1) % 2 = 0)]
    have h5 : (2 * (-v).toNat - 1) / 2 = (-v).toNat - 1 := by omega
    rw [h5]
    omega

/-- Serialized form of a signed integer: zigzag then VLQ
(modelled from the spec's "compact variable-length encoding"). -/
def serInt (v : Int) : List Nat := vlqEncode (zigzag v)

/-- Parse a signed integer: VLQ then un-zigzag. -/
def parseInt (bs : List Nat) : Option (Int × List Nat) :=
  match vlqDecode bs with
  | some (n, rest) => some (unzigzag n, rest)
  | none => none

theorem parseInt_serInt (v : Int) (rest : List Nat) :
    parseInt (serInt v ++ rest) = some (v, rest) := by
  unfold parseInt serInt
  rw [vlqDecode_encode]
  show some (unzigzag (zigzag v), rest) = some (v, rest)
  rw [unzigzag_zigzag]

/-- Two's-complement byte of an `i8` value (the raw single-byte encoding of
a Byte constant): `v as u8`. -/
def byteOfI8 (v : Int) : Nat := (v % 256).toNat

/-- Reinterpret a byte as an `i8` value (`b as i8` in the source). -/
def u8AsI8 (b : Nat) : Int := if b % 256 < 128 then ((b % 256 : Nat) : Int) else ((b % 256 : Nat) : Int) - 256

/-- Reinterpret an `i8` value as a byte (`i8 as u8`, the source's
`FromVecI8` direction). -/
def i8AsU8 (v : Int) : Nat := (v % 256).toNat

theorem byteOfI8_lt (v : Int) : byteOfI8 v < 256 := by
  unfold byteOfI8
  omega

theorem u8AsI8_byteOfI8 (v : Int) (h1 : -128 ≤ v) (h2 : v < 128) :
    u8AsI8 (byteOfI8 v) = v := by
  unfold u8AsI8 byteOfI8
  omega

theorem i8AsU8_u8AsI8 (b : Nat) (h : b < 256) : i8AsU8 (u8AsI8 b) = b := by
  unfold i8AsU8 u8AsI8
  by_cases hb : b % 256 < 128
  · rw [if_pos hb]
    omega
  · rw [if_neg hb]
    omega

theorem u8AsI8_range (b : Nat) : -128 ≤ u8AsI8 b ∧ u8AsI8 b < 128 := by
  unfold u8AsI8
  by_cases hb : b % 256 < 128
  · rw [if_pos hb]
    omega
  · rw [if_neg hb]
    omega

/-- The closed set of static types (`SType` in `types/stype.rs`, not under
src/; the variant set is modelled from the spec's §3 data model, restricted
to the kinds the claims exercise). -/
inductive SType where
  | SBoolean
  | SByte
  | SShort
  | SInt
  | SLong
  | SBigInt
  | SGroupElement
  | SSigmaProp
  | SBox
  | SColl (elemType : SType)
deriving DecidableEq

/-- Modelled from the spec: "Types are encoded via a parallel compact
grammar (one tag byte for primitives, recursive tag+payload for
containers)". -/
def serSType : SType → List Nat
  | .SBoolean => [1]
  | .SByte => [2]
  | .SShort => [3]
  | .SInt => [4]
  | .SLong => [5]
  | .SBigInt => [6]
  | .SGroupElement => [7]
  | .SSigmaProp => [8]
  | .SBox => [9]
  | .SColl t => 12 :: serSType t

/-- Modelled from the spec: type-tag decoder (prefix-consuming). -/
def parseSType : List Nat → Option (SType × List Nat)
  | [] => none
  | b :: bs =>
    if b = 1 then some (.SBoolean, bs)
    else if b = 2 then some (.SByte, bs)
    else if b = 3 then some (.SShort, bs)
    else if b = 4 then some (.SInt, bs)
    else if b = 5 then some (.SLong, bs)
    else if b = 6 then some (.SBigInt, bs)
    else if b = 7 then some (.SGroupElement, bs)
    else if b = 8 then some (.SSigmaProp, bs)
    else if b = 9 then some (.SBox, bs)
    else if b = 12 then
      match parseSType bs with
      | some (t, rest) => some (.SColl t, rest)
      | none => none
    else none

theorem parseSType_serSType (t : SType) : ∀ rest : List Nat,
    parseSType (serSType t ++ rest) = some (t, rest) := by
  induction t with
  | SColl elemType ih =>
    intro rest
    simp [serSType, parseSType, ih rest]
  | _ => intro rest; rfl

theorem serSType_lt (t : SType) : ∀ b ∈ serSType t, b < 256 := by
  induction t with
  | SColl elemType ih =>
    intro b hb
    rcases List.mem_cons.mp hb with h1 | h2
    · omega
    · exact ih b h2
  | _ => intro b hb; simp only [serSType, List.mem_singleton] at hb; omega

/-- The tagged runtime value model (`Value` in `mir/value.rs`, not under
src/; the variants are modelled from the spec's §3 value model and from the
patterns matched by the code under src/: `Value::Byte`..`Value::BigInt` in
the Upcast evaluator, `Value::Coll(Coll::Primitive(CollPrim::CollByte(..)))`
in the Constant lifts — rendered here as `CollByte` — and a general
collection of booleans, rendered as `CollBool`, for the boolean reducers). -/
inductive Value where
  | Boolean (b : Bool)
  | Byte (v : Int)
  | Short (v : Int)
  | Int (v : Int)
  | Long (v : Int)
  | BigInt (v : Int)
  | GroupElement (g : Nat)
  | SigmaProp (p : Nat)
  | BoxV (b : Nat)
  | CollByte (l : List Int)
  | CollBool (l : List Bool)
deriving DecidableEq

/-- Rendering of a `Value` mirroring Rust's `{:?}` (`Debug`) formatting,
as interpolated into the evaluator's and extractors' error messages. -/
def valueDebug : Value → String
  | .Boolean b => "Boolean(" ++ toString b ++ ")"
  | .Byte v => "Byte(" ++ toString v ++ ")"
  | .Short v => "Short(" ++ toString v ++ ")"
  | .Int v => "Int(" ++ toString v ++ ")"
  | .Long v => "Long(" ++ toString v ++ ")"
  | .BigInt v => "BigInt(" ++ toString v ++ ")"
  | .GroupElement g => "GroupElement(" ++ toString g ++ ")"
  | .SigmaProp p => "SigmaProp(" ++ toString p ++ ")"
  | .BoxV b => "Box(" ++ toString b ++ ")"
  | .CollByte l => "Coll(Primitive(CollByte(" ++ toString l ++ ")))"
  | .CollBool l => "Coll(NonPrimitive(Boolean, " ++ toString l ++ "))"

/-- Structural agreement between a declared type and a value's variant
(the spec's §3 invariant "a Value's variant always corresponds to exactly
one Type"). -/
def shapeMatches (t : SType) : Value → Bool
  | .Boolean _ => decide (t = .SBoolean)
  | .Byte _ => decide (t = .SByte)
  | .Short _ => decide (t = .SShort)
  | .Int _ => decide (t = .SInt)
  | .Long _ => decide (t = .SLong)
  | .BigInt _ => decide (t = .SBigInt)
  | .GroupElement _ => decide (t = .SGroupElement)
  | .SigmaProp _ => decide (t = .SSigmaProp)
  | .BoxV _ => decide (t = .SBox)
  | .CollByte _ => decide (t = .SColl .SByte)
  | .CollBool _ => decide (t = .SColl .SBoolean)

/-- The `Constant` IR node from `ast/constant.rs`: a declared type paired
with a value (both fields public in the source). -/
structure Constant where
  tpe : SType
  v : Value
deriving DecidableEq

/-- Values whose numeric payloads fit their machine width (raw-byte encoded
fields; the zigzag/VLQ-encoded widths need no bound for the codec). -/
def valueInRange : Value → Bool
  | .Byte v => decide (-128 ≤ v ∧ v < 128)
  | .CollByte l => l.all fun v => decide (-128 ≤ v ∧ v < 128)
  | _ => true

/-- Modelled from the spec (the `DataSerializer` value-encoding path is not
under src/): per-variant value payload encoding — booleans one byte, Byte a
raw two's-complement byte, the remaining numerics zigzag/VLQ, the opaque
kinds a VLQ handle, collections length-prefixed. -/
def serValue : Value → List Nat
  | .Boolean b => [if b then 1 else 0]
  | .Byte v => [byteOfI8 v]
  | .Short v => serInt v
  | .Int v => serInt v
  | .Long v => serInt v
  | .BigInt v => serInt v
  | .GroupElement g => vlqEncode g
  | .SigmaProp p => vlqEncode p
  | .BoxV b => vlqEncode b
  | .CollByte l => vlqEncode l.length ++ l.map byteOfI8
  | .CollBool l => vlqEncode l.length ++ l.map fun b => if b then 1 else 0

/-- Read exactly `n` bytes off the front of the input. -/
def readBytes : Nat → List Nat → Option (List Nat × List Nat)
  | 0, bs => some ([], bs)
  | _ + 1, [] => none
  | n + 1, b :: bs =>
    match readBytes n bs with
    | some (l, rest) => some (b :: l, rest)
    | none => none

theorem readBytes_append (l : List Nat) (rest : List Nat) :
    readBytes l.length (l ++ rest) = some (l, rest) := by
  induction l with
  | nil => rfl
  | cons b bs ih => simp only [List.length_cons, List.cons_append, readBytes, List.append_eq, ih]

/-- Modelled from the spec: type-directed value payload decoder. -/
def parseValue : SType → List Nat → Option (Value × List Nat)
  | .SBoolean, b :: bs => if b = 0 then some (.Boolean false, bs) else if b = 1 then some (.Boolean true, bs) else none
  | .SBoolean, [] => none
  | .SByte, b :: bs => some (.Byte (u8AsI8 b), bs)
  | .SByte, [] => none
  | .SShort, bs => match parseInt bs with | some (v, rest) => some (.Short v, rest) | none => none
  | .SInt, bs => match parseInt bs with | some (v, rest) => some (.Int v, rest) | none => none
  | .SLong, bs => match parseInt bs with | some (v, rest) => some (.Long v, rest) | none => none
  | .SBigInt, bs => match parseInt bs with | some (v, rest) => some (.BigInt v, rest) | none => none
  | .SGroupElement, bs => match vlqDecode bs with | some (g, rest) => some (.GroupElement g, rest) | none => none
  | .SSigmaProp, bs => match vlqDecode bs with | some (p, rest) => some (.SigmaProp p, rest) | none => none
  | .SBox, bs => match vlqDecode bs with | some (b, rest) => some (.BoxV b, rest) | none => none
  | .SColl .SByte, bs =>
    match vlqDecode bs with
    | some (n, rest) =>
      match readBytes n rest with
      | some (l, rest2) => some (.CollByte (l.map u8AsI8), rest2)
      | none => none
    | none => none
  | .SColl .SBoolean, bs =>
    match vlqDecode bs with
    | some (n, rest) =>
      match readBytes n rest with
      | some (l, rest2) => some (.CollBool (l.map fun b => decide (b ≠ 0)), rest2)
      | none => none
    | none => none
  | .SColl _, _ => none

theorem parseValue_serValue (t : SType) (v : Value) (rest : List Nat)
    (hshape : shapeMatches t v = true) (hrange : valueInRange v = true) :
    parseValue t (serValue v ++ rest) = some (v, rest) := by
  cases v with
  | Boolean b =>
    have ht : t = SType.SBoolean := of_decide_eq_true hshape
    subst ht
    cases b <;> rfl
  | Byte v =>
    have ht : t = SType.SByte := of_decide_eq_true hshape
    subst ht
    simp only [valueInRange, decide_eq_true_eq] at hrange
    simp only [serValue, List.cons_append, parseValue, List.nil_append]
    rw [u8AsI8_byteOfI8 v hrange.1 hrange.2]
  | Short v =>
    have ht : t = SType.SShort := of_decide_eq_true hshape
    subst ht
    simp only [serValue, parseValue, parseInt_serInt]
  | Int v =>
    have ht : t = SType.SInt := of_decide_eq_true hshape
    subst ht
    simp only [serValue, parseValue, parseInt_serInt]
  | Long v =>
    have ht : t = SType.SLong := of_decide_eq_true hshape
    subst ht
    simp only [serValue, parseValue, parseInt_serInt]
  | BigInt v =>
    have ht : t = SType.SBigInt := of_decide_eq_true hshape
    subst ht
    simp only [serValue, parseValue, parseInt_serInt]
  | GroupElement g =>
    have ht : t = SType.SGroupElement := of_decide_eq_true hshape
    subst ht
    simp only [serValue, parseValue, vlqDecode_encode]
  | SigmaProp p =>
    have ht : t = SType.SSigmaProp := of_decide_eq_true hshape
    subst ht
    simp only [serValue, parseValue, vlqDecode_encode]
  | BoxV b =>
    have ht : t = SType.SBox := of_decide_eq_true hshape
    subst ht
    simp only [serValue, parseValue, vlqDecode_encode]
  | CollByte l =>
    have ht : t = SType.SColl SType.SByte := of_decide_eq_true hshape
    subst ht
    simp only [valueInRange, List.all_eq_true, decide_eq_true_eq] at hrange
    simp only [serValue, parseValue, List.append_assoc, vlqDecode_encode]
    have hlen : (l.map byteOfI8).length = l.length := List.length_map l byteOfI8
    rw [show l.length = (l.map byteOfI8).length from hlen.symm,
      readBytes_append (l.map byteOfI8) rest]
    have hmap : (l.map byteOfI8).map u8AsI8 = l := by
      rw [List.map_map]
      have hcong : ∀ x ∈ l, (u8AsI8 ∘ byteOfI8) x = id x := by
        intro x hx
        have hr := hrange x hx
        exact u8AsI8_byteOfI8 x hr.1 hr.2
      rw [List.map_congr_left hcong, List.map_id]
    show some (Value.CollByte ((l.map byteOfI8).map u8AsI8), rest) = some (Value.CollByte l, rest)
    rw [hmap]
  | CollBool l =>
    have ht : t = SType.SColl SType.SBoolean := of_decide_eq_true hshape
    subst ht
    simp only [serValue, parseValue, List.append_assoc, vlqDecode_encode]
    have hlen : (l.map fun b => if b then 1 else 0).length = l.length := List.length_map l _
    rw [show l.length = (l.map fun b => if b then 1 else 0).length from hlen.symm,
      readBytes_append (l.map fun b => if b then 1 else 0) rest]
    have hmap : ((l.map fun b => if b then 1 else 0).map fun b => decide (b ≠ 0)) = l := by
      rw [List.map_map]
      have hcong : ∀ x ∈ l, ((fun b => decide (b ≠ 0)) ∘ fun b : Bool => if b then (1 : Nat) else 0) x = id x := by
        intro x _
        cases x <;> rfl
      rw [List.map_congr_left hcong, List.map_id]
    show some (Value.CollBool ((l.map fun b => if b then 1 else 0).map fun b => decide (b ≠ 0)), rest)
      = some (Value.CollBool l, rest)
    rw [hmap]

theorem serValue_lt (v : Value) : ∀ b ∈ serValue v, b < 256 := by
  cases v
  case Boolean b => cases b <;> (intro x hx; simp [serValue] at hx; omega)
  case Byte v =>
    intro x hx
    simp only [serValue, List.mem_singleton] at hx
    subst hx
    exact byteOfI8_lt v
  case Short v => exact fun b hb => vlqEncode_lt _ b hb
  case Int v => exact fun b hb => vlqEncode_lt _ b hb
  case Long v => exact fun b hb => vlqEncode_lt _ b hb
  case BigInt v => exact fun b hb => vlqEncode_lt _ b hb
  case GroupElement g => exact fun b hb => vlqEncode_lt _ b hb
  case SigmaProp p => exact fun b hb => vlqEncode_lt _ b hb
  case BoxV b => exact fun x hx => vlqEncode_lt _ x hx
  case CollByte l =>
    intro b hb
    rcases List.mem_append.mp hb with h1 | h2
    · exact vlqEncode_lt _ b h1
    · rcases List.mem_map.mp h2 with ⟨x, _, hx⟩
      subst hx
      exact byteOfI8_lt x
  case CollBool l =>
    intro b hb
    rcases List.mem_append.mp hb with h1 | h2
    · exact vlqEncode_lt _ b h1
    · rcases List.mem_map.mp h2 with ⟨x, _, hx⟩
      cases x <;> simp at hx <;> omega

/-- Canonical binary encoding of a `Constant` (the spec's §4.3: "Constants
are encoded specially as a (type-tag bytes, value bytes) pair"). -/
def serConstant (c : Constant) : List Nat := serSType c.tpe ++ serValue c.v

/-- Decoder for a `Constant`: parse the type tag, then the type-directed
value payload (modelled from the spec's §4.3). -/
def parseConstant (bs : List Nat) : Option (Constant × List Nat) :=
  match parseSType bs with
  | some (t, rest) =>
    match parseValue t rest with
    | some (v, rest2) => some (⟨t, v⟩, rest2)
    | none => none
  | none => none

/-- A constant whose declared type matches its value's shape and whose
raw-byte payloads are in machine range: the "validly constructed" premise
of the codec round-trip law. -/
def constWF (c : Constant) : Bool := shapeMatches c.tpe c.v && valueInRange c.v

theorem parseConstant_serConstant (c : Constant) (rest : List Nat)
    (h : constWF c = true) :
    parseConstant (serConstant c ++ rest) = some (c, rest) := by
  simp only [constWF, Bool.and_eq_true] at h
  obtain ⟨h1, h2⟩ := h
  unfold parseConstant serConstant
  rw [List.append_assoc, parseSType_serSType]
  show (match parseValue c.tpe (serValue c.v ++ rest) with
    | some (v, rest2) => some (⟨c.tpe, v⟩, rest2)
    | none => none) = some (c, rest)
  rw [parseValue_serValue c.tpe c.v rest h1 h2]

theorem serConstant_lt (c : Constant) : ∀ b ∈ serConstant c, b < 256 := by
  intro b hb
  rcases List.mem_append.mp hb with h1 | h2
  · exact serSType_lt _ b h1
  · exact serValue_lt _ b h2

/-- Method descriptor (`SMethod` in `types/smethod.rs`, not under src/;
modelled from the spec's §4.1: "a method descriptor binds an owner Type, a
numeric method identifier, and a signature"; the fields are the ones the
MethodCall serializer under src/ reads: `obj_type.type_id()`,
`method_id()`, `tpe()`). -/
structure SMethod where
  typeId : Nat
  methodId : Nat
  tpe : SType
deriving DecidableEq

/-- Modelled from the spec: the fixed table of known method descriptors
(the one exercised by the repository's tests is `Context.dataInputs`,
returning a collection of boxes). -/
def methodTable : List SMethod :=
  [⟨101, 1, SType.SColl SType.SBox⟩]

/-- Modelled from the spec (`SMethod::from_ids` in `types/smethod.rs`, not
under src/): resolve a method descriptor from its owner type id and method
id alone, as the MethodCall parser does. -/
def SMethod.from_ids (typeId methodId : Nat) : SMethod :=
  match methodTable.find? fun m => decide (m.typeId = typeId) && decide (m.methodId = methodId) with
  | some m => m
  | none => ⟨typeId, methodId, SType.SBoolean⟩

/-- The expression IR (`Expr` in `ast/expr.rs`, not under src/), restricted
to the node variants whose files are in the repository: constants, the
boolean reducers `And`/`Or`, numeric `Upcast`, and `MethodCall`; field
names follow the source structs. -/
inductive Expr where
  | Const (c : Constant)
  | And (input : Expr)
  | Or (input : Expr)
  | Upcast (input : Expr) (tpe : SType)
  | MethodCall (obj : Expr) (method : SMethod) (args : List Expr)

/-- Modelled from the spec: stable opcode of the And node (`OpCode::AND`). -/
def opCodeAND : Nat := 150

/-- Modelled from the spec: stable opcode of the Or node (`OpCode::OR`). -/
def opCodeOR : Nat := 151

/-- Modelled from the spec: stable opcode of the Upcast node
(`OpCode::UPCAST`). -/
def opCodeUPCAST : Nat := 156

/-- Modelled from the spec: stable opcode of the MethodCall node
(`OpCode::METHOD_CALL`). -/
def opCodeMETHOD_CALL : Nat := 161

mutual
/-- Expression serializer: the spec's §4.3 dispatch ("a leading opcode
byte identifying its variant, followed by a fixed, variant-specific
encoding of its fields; child expressions recurse"; constants are the
tag-led special case). The per-variant field encodings follow the source:
`And::sigma_serialize` writes only its input, `Upcast::sigma_serialize`
writes input then type, `MethodCall::sigma_serialize` writes type id,
method id, receiver, argument count, then the arguments. -/
def serExpr : Expr → List Nat
  | .Const c => serConstant c
  | .And input => opCodeAND :: serExpr input
  | .Or input => opCodeOR :: serExpr input
  | .Upcast input tpe => opCodeUPCAST :: (serExpr input ++ serSType tpe)
  | .MethodCall obj method args =>
    opCodeMETHOD_CALL :: method.typeId % 256 :: method.methodId % 256 ::
      (serExpr obj ++ (vlqEncode args.length ++ serExprList args))

/-- Concatenated encodings of a list of argument expressions. -/
def serExprList : List Expr → List Nat
  | [] => []
  | e :: es => serExpr e ++ serExprList es
end

/-- Read a single byte off the front of the input (the reader's `get_u8`,
used for the owner type id and method id of a MethodCall). -/
def readByte : List Nat → Option (Nat × List Nat)
  | [] => none
  | b :: bs => some (b, bs)

mutual
/-- Expression parser (fuel-indexed on nesting depth): opcode dispatch,
with a non-opcode leading byte parsed as an inline constant
(`Expr::sigma_parse` in `serialization/expr.rs`, not under src/; the
dispatch shape is modelled from the spec's §4.3, the MethodCall field
order from `serialization/method_call.rs` under src/). -/
def parseExpr : Nat → List Nat → Option (Expr × List Nat)
  | 0, _ => none
  | _ + 1, [] => none
  | fuel + 1, b :: bs =>
    if b = opCodeAND then
      match parseExpr fuel bs with
      | some (input, rest) => some (.And input, rest)
      | none => none
    else if b = opCodeOR then
      match parseExpr fuel bs with
      | some (input, rest) => some (.Or input, rest)
      | none => none
    else if b = opCodeUPCAST then
      match parseExpr fuel bs with
      | some (input, r1) =>
        match parseSType r1 with
        | some (t, r2) => some (.Upcast input t, r2)
        | none => none
      | none => none
    else if b = opCodeMETHOD_CALL then
      match readByte bs with
      | some (tid, bs1) =>
        match readByte bs1 with
        | some (mid, r1) =>
          match parseExpr fuel r1 with
          | some (obj, r2) =>
            match vlqDecode r2 with
            | some (n, r3) =>
              match parseExprN fuel n r3 with
              | some (args, r4) => some (.MethodCall obj (SMethod.from_ids tid mid) args, r4)
              | none => none
            | none => none
          | none => none
        | none => none
      | none => none
    else
      match parseConstant (b :: bs) with
      | some (c, rest) => some (.Const c, rest)
      | none => none
termination_by fuel bs => (fuel, 0)

/-- Parse exactly `n` argument expressions. -/
def parseExprN : Nat → Nat → List Nat → Option (List Expr × List Nat)
  | _, 0, bs => some ([], bs)
  | fuel, n + 1, bs =>
    match parseExpr fuel bs with
    | some (e, r) =>
      match parseExprN fuel n r with
      | some (es, r2) => some (e :: es, r2)
      | none => none
    | none => none
termination_by fuel n bs => (fuel, n + 1)
end

theorem parseExpr_cons (fuel b : Nat) (bs : List Nat) :
    parseExpr (fuel + 1) (b :: bs) =
      (if b = opCodeAND then
        match parseExpr fuel bs with
        | some (input, rest) => some (.And input, rest)
        | none => none
      else if b = opCodeOR then
        match parseExpr fuel bs with
        | some (input, rest) => some (.Or input, rest)
        | none => none
      else if b = opCodeUPCAST then
        match parseExpr fuel bs with
        | some (input, r1) =>
          match parseSType r1 with
          | some (t, r2) => some (.Upcast input t, r2)
          | none => none
        | none => none
      else if b = opCodeMETHOD_CALL then
        match readByte bs with
        | some (tid, bs1) =>
          match readByte bs1 with
          | some (mid, r1) =>
            match parseExpr fuel r1 with
            | some (obj, r2) =>
              match vlqDecode r2 with
              | some (n, r3) =>
                match parseExprN fuel n r3 with
                | some (args, r4) => some (.MethodCall obj (SMethod.from_ids tid mid) args, r4)
                | none => none
              | none => none
            | none => none
          | none => none
        | none => none
      else
        match parseConstant (b :: bs) with
        | some (c, rest) => some (.Const c, rest)
        | none => none) := by
  simp only [parseExpr]

mutual
/-- A validly constructed expression: every constant is well formed, every
method descriptor carries byte-sized ids and is exactly what the method
table resolves for those ids (the premise under which an encoded tree is
exchangeable). -/
def exprOk : Expr → Bool
  | .Const c => constWF c
  | .And input => exprOk input
  | .Or input => exprOk input
  | .Upcast input _ => exprOk input
  | .MethodCall obj method args =>
    decide (SMethod.from_ids method.typeId method.methodId = method) &&
    decide (method.typeId < 256) && decide (method.methodId < 256) &&
    exprOk obj && exprOkList args

/-- `exprOk` over every expression of a list. -/
def exprOkList : List Expr → Bool
  | [] => true
  | e :: es => exprOk e && exprOkList es
end

mutual
/-- Nesting depth of an expression (the fuel the parser needs). -/
def exprDepth : Expr → Nat
  | .Const _ => 1
  | .And input => exprDepth input + 1
  | .Or input => exprDepth input + 1
  | .Upcast input _ => exprDepth input + 1
  | .MethodCall obj _ args => max (exprDepth obj) (exprDepthList args) + 1

/-- Maximum nesting depth over a list of expressions. -/
def exprDepthList : List Expr → Nat
  | [] => 0
  | e :: es => max (exprDepth e) (exprDepthList es)
end

theorem serConstant_cons (c : Constant) :
    ∃ b bs, serConstant c = b :: bs ∧ 1 ≤ b ∧ b ≤ 12 := by
  obtain ⟨t, v⟩ := c
  cases t
  case SBoolean => exact ⟨1, serValue v, rfl, by omega, by omega⟩
  case SByte => exact ⟨2, serValue v, rfl, by omega, by omega⟩
  case SShort => exact ⟨3, serValue v, rfl, by omega, by omega⟩
  case SInt => exact ⟨4, serValue v, rfl, by omega, by omega⟩
  case SLong => exact ⟨5, serValue v, rfl, by omega, by omega⟩
  case SBigInt => exact ⟨6, serValue v, rfl, by omega, by omega⟩
  case SGroupElement => exact ⟨7, serValue v, rfl, by omega, by omega⟩
  case SSigmaProp => exact ⟨8, serValue v, rfl, by omega, by omega⟩
  case SBox => exact ⟨9, serValue v, rfl, by omega, by omega⟩
  case SColl et => exact ⟨12, serSType et ++ serValue v, rfl, by omega, by omega⟩

/-- One parsing step of an encoded MethodCall node: the parser reads back
the owner type id and method id, re-resolves the method via
`SMethod.from_ids`, and parses the receiver and arguments with the given
continuations. -/
theorem parseExpr_mc_step (obj : Expr) (m : SMethod) (args : List Expr)
    (fuel : Nat) (rest : List Nat)
    (hobj : ∀ r, parseExpr fuel (serExpr obj ++ r) = some (obj, r))
    (hargs : ∀ r, parseExprN fuel args.length (serExprList args ++ r) = some (args, r))
    (ht : m.typeId < 256) (hmid : m.methodId < 256) :
    parseExpr (fuel + 1) (serExpr (Expr.MethodCall obj m args) ++ rest)
      = some (Expr.MethodCall obj (SMethod.from_ids m.typeId m.methodId) args, rest) := by
  have ht2 : m.typeId % 256 = m.typeId := Nat.mod_eq_of_lt ht
  have hm2 : m.methodId % 256 = m.methodId := Nat.mod_eq_of_lt hmid
  simp only [serExpr, List.cons_append, List.append_assoc]
  rw [parseExpr_cons]
  rw [if_neg (by simp only [opCodeAND, opCodeMETHOD_CALL]; omega),
    if_neg (by simp only [opCodeOR, opCodeMETHOD_CALL]; omega),
    if_neg (by simp only [opCodeUPCAST, opCodeMETHOD_CALL]; omega),
    if_pos rfl]
  simp only [readByte]
  rw [hobj (vlqEncode args.length ++ (serExprList args ++ rest))]
  simp only [vlqDecode_encode, hargs rest, ht2, hm2]

mutual
/-- Round-trip of the expression codec: parsing the encoding of a validly
constructed expression (with enough fuel for its depth) returns it and the
trailing bytes untouched. -/
theorem parseExpr_serExpr : ∀ (e : Expr) (fuel : Nat) (rest : List Nat),
    exprOk e = true → exprDepth e ≤ fuel →
    parseExpr fuel (serExpr e ++ rest) = some (e, rest)
  | .Const c, fuel, rest, hok, hd => by
    cases fuel with
    | zero => simp only [exprDepth] at hd; omega
    | succ f =>
      obtain ⟨b, bs, hcons, hb1, hb12⟩ := serConstant_cons c
      have hpc := parseConstant_serConstant c rest (by simpa only [exprOk] using hok)
      simp only [serExpr]
      rw [hcons, List.cons_append, parseExpr_cons]
      rw [if_neg (by simp only [opCodeAND]; omega),
        if_neg (by simp only [opCodeOR]; omega),
        if_neg (by simp only [opCodeUPCAST]; omega),
        if_neg (by simp only [opCodeMETHOD_CALL]; omega)]
      rw [show b :: (bs ++ rest) = serConstant c ++ rest by rw [hcons, List.cons_append]]
      rw [hpc]
  | .And input, fuel, rest, hok, hd => by
    cases fuel with
    | zero => simp only [exprDepth] at hd; omega
    | succ f =>
      have ih := parseExpr_serExpr input f rest (by simpa only [exprOk] using hok)
        (by simp only [exprDepth] at hd; omega)
      simp only [serExpr, List.cons_append]
      rw [parseExpr_cons, if_pos rfl, ih]
  | .Or input, fuel, rest, hok, hd => by
    cases fuel with
    | zero => simp only [exprDepth] at hd; omega
    | succ f =>
      have ih := parseExpr_serExpr input f rest (by simpa only [exprOk] using hok)
        (by simp only [exprDepth] at hd; omega)
      simp only [serExpr, List.cons_append]
      rw [parseExpr_cons, if_neg (by simp only [opCodeAND, opCodeOR]; omega), if_pos rfl, ih]
  | .Upcast input tpe, fuel, rest, hok, hd => by
    cases fuel with
    | zero => simp only [exprDepth] at hd; omega
    | succ f =>
      have ih := parseExpr_serExpr input f (serSType tpe ++ rest)
        (by simpa only [exprOk] using hok)
        (by simp only [exprDepth] at hd; omega)
      simp only [serExpr, List.cons_append, List.append_assoc]
      rw [parseExpr_cons, if_neg (by simp only [opCodeAND, opCodeUPCAST]; omega),
        if_neg (by simp only [opCodeOR, opCodeUPCAST]; omega),
        if_pos rfl, ih]
      simp only [parseSType_serSType]
  | .MethodCall obj m args, fuel, rest, hok, hd => by
    cases fuel with
    | zero => simp only [exprDepth] at hd; omega
    | succ f =>
      simp only [exprOk, Bool.and_eq_true, decide_eq_true_eq] at hok
      obtain ⟨⟨⟨⟨hfid, ht⟩, hmid⟩, hobj⟩, hargs⟩ := hok
      have hdo : exprDepth obj ≤ f := by simp only [exprDepth] at hd; omega
      have hda : exprDepthList args ≤ f := by simp only [exprDepth] at hd; omega
      have h1 : ∀ r, parseExpr f (serExpr obj ++ r) = some (obj, r) :=
        fun r => parseExpr_serExpr obj f r hobj hdo
      have h2 : ∀ r, parseExprN f args.length (serExprList args ++ r) = some (args, r) :=
        fun r => parseExprN_serExprList args f r hargs hda
      rw [parseExpr_mc_step obj m args f rest h1 h2 ht hmid, hfid]

/-- Round-trip for a list of argument encodings. -/
theorem parseExprN_serExprList : ∀ (es : List Expr) (fuel : Nat) (rest : List Nat),
    exprOkList es = true → exprDepthList es ≤ fuel →
    parseExprN fuel es.length (serExprList es ++ rest) = some (es, rest)
  | [], fuel, rest, _, _ => by
    simp only [serExprList, List.length_nil, List.nil_append, parseExprN]
  | e :: es, fuel, rest, hok, hd => by
    simp only [exprOkList, Bool.and_eq_true] at hok
    have hd1 : exprDepth e ≤ fuel := by simp only [exprDepthList] at hd; omega
    have hd2 : exprDepthList es ≤ fuel := by simp only [exprDepthList] at hd; omega
    have ih1 := parseExpr_serExpr e fuel (serExprList es ++ rest) hok.1 hd1
    have ih2 := parseExprN_serExprList es fuel rest hok.2 hd2
    simp only [serExprList, List.length_cons, List.append_assoc, parseExprN, ih1, ih2]
end

theorem serConstant_length_pos (c : Constant) : 1 ≤ (serConstant c).length := by
  obtain ⟨b, bs, hcons, _, _⟩ := serConstant_cons c
  rw [hcons]
  simp

mutual
/-- Every node of an expression contributes at least one byte, so the
parser fuel `length + 1` always covers the nesting depth. -/
theorem exprDepth_le_length : ∀ e : Expr, exprDepth e ≤ (serExpr e).length
  | .Const c => by
    have h := serConstant_length_pos c
    simpa only [exprDepth, serExpr] using h
  | .And input => by
    have ih := exprDepth_le_length input
    simp only [exprDepth, serExpr, List.length_cons]
    omega
  | .Or input => by
    have ih := exprDepth_le_length input
    simp only [exprDepth, serExpr, List.length_cons]
    omega
  | .Upcast input tpe => by
    have ih := exprDepth_le_length input
    simp only [exprDepth, serExpr, List.length_cons, List.length_append]
    omega
  | .MethodCall obj m args => by
    have ih1 := exprDepth_le_length obj
    have ih2 := exprDepthList_le_length args
    simp only [exprDepth, serExpr, List.length_cons, List.length_append]
    omega

/-- List version of `exprDepth_le_length`. -/
theorem exprDepthList_le_length : ∀ es : List Expr, exprDepthList es ≤ (serExprList es).length
  | [] => by simp only [exprDepthList, serExprList, List.length_nil, Nat.le_refl]
  | e :: es => by
    have ih1 := exprDepth_le_length e
    have ih2 := exprDepthList_le_length es
    simp only [exprDepthList, serExprList, List.length_append]
    omega
end

/-- Modelled from the spec: the tagged codec error
(`SerializationError` in `serialization/serializable.rs`, not under
src/). -/
inductive SerializationError where
  | InvalidData
deriving DecidableEq

/-- `SigmaSerializable::sigma_serialize_bytes` for expressions. -/
def Expr.sigma_serialize_bytes (e : Expr) : List Nat := serExpr e

/-- `SigmaSerializable::sigma_parse_bytes` for expressions: run the parser
with fuel covering any tree encodable in the buffer. -/
def Expr.sigma_parse_bytes (bs : List Nat) : Except SerializationError Expr :=
  match parseExpr (bs.length + 1) bs with
  | some (e, _) => Except.ok e
  | none => Except.error SerializationError.InvalidData

/-- `SigmaSerializable::sigma_serialize_bytes` for constants (used by the
JSON literal path in `chain/json.rs`). -/
def Constant.sigma_serialize_bytes (c : Constant) : List Nat := serConstant c

/-- `Constant::sigma_parse_bytes` (used by `TryFrom<Base16DecodedBytes>`
and `RichConstant::from_str` under src/). -/
def Constant.sigma_parse_bytes (bs : List Nat) : Except SerializationError Constant :=
  match parseConstant bs with
  | some (c, _) => Except.ok c
  | none => Except.error SerializationError.InvalidData

/-- The evaluator's typed error (`EvalError` in `eval/mod.rs`, not under
src/; the variant used by the code under src/ is `UnexpectedValue` carrying
a message). -/
inductive EvalError where
  | UnexpectedValue (msg : String)
deriving DecidableEq

/-- `upcast_to_bigint` from `eval/upcast.rs`: every numeric variant is
re-tagged as BigInt with the same integer; anything else is an
`UnexpectedValue` error (whose message, as in the source, says
"to Long"). -/
def upcast_to_bigint (in_v : Value) : Except EvalError Value :=
  match in_v with
  | .Byte v => .ok (.BigInt v)
  | .Short v => .ok (.BigInt v)
  | .Int v => .ok (.BigInt v)
  | .Long v => .ok (.BigInt v)
  | .BigInt _ => .ok in_v
  | _ => .error (.UnexpectedValue
      ("Upcast: cannot upcast " ++ valueDebug in_v ++ " to Long"))

/-- `upcast_to_long` from `eval/upcast.rs` (`v as i64` on the narrower
widths is sign extension, i.e. the same integer). -/
def upcast_to_long (in_v : Value) : Except EvalError Value :=
  match in_v with
  | .Byte v => .ok (.Long v)
  | .Short v => .ok (.Long v)
  | .Int v => .ok (.Long v)
  | .Long _ => .ok in_v
  | _ => .error (.UnexpectedValue
      ("Upcast: cannot upcast " ++ valueDebug in_v ++ " to Long"))

/-- `upcast_to_int` from `eval/upcast.rs`. -/
def upcast_to_int (in_v : Value) : Except EvalError Value :=
  match in_v with
  | .Byte v => .ok (.Int v)
  | .Short v => .ok (.Int v)
  | .Int _ => .ok in_v
  | _ => .error (.UnexpectedValue
      ("Upcast: cannot upcast " ++ valueDebug in_v ++ " to Int"))

/-- `upcast_to_short` from `eval/upcast.rs`. -/
def upcast_to_short (in_v : Value) : Except EvalError Value :=
  match in_v with
  | .Byte v => .ok (.Short v)
  | .Short _ => .ok in_v
  | _ => .error (.UnexpectedValue
      ("Upcast: cannot upcast " ++ valueDebug in_v ++ " to Short"))

/-- `upcast_to_byte` from `eval/upcast.rs`. -/
def upcast_to_byte (in_v : Value) : Except EvalError Value :=
  match in_v with
  | .Byte _ => .ok in_v
  | _ => .error (.UnexpectedValue
      ("Upcast: cannot upcast " ++ valueDebug in_v ++ " to Byte"))

/-- The tree-walking evaluator restricted to the modelled nodes. The
Upcast rule is `impl Evaluable for Upcast` under src/ (evaluate the input,
then dispatch on the target type). The And/Or rules are modelled from the
spec: evaluate the input to a boolean collection, AND is true iff all
elements are true (short-circuiting fold), OR iff at least one is.
MethodCall evaluation is not part of the repository fragment and is
modelled as the spec's "unresolved method" failure. -/
def eval : Expr → Except EvalError Value
  | .Const c => .ok c.v
  | .And input =>
    match eval input with
    | .ok (.CollBool l) => .ok (.Boolean (l.all id))
    | .ok other => .error (.UnexpectedValue
        ("And: expected Coll[Boolean], got " ++ valueDebug other))
    | .error e => .error e
  | .Or input =>
    match eval input with
    | .ok (.CollBool l) => .ok (.Boolean (l.any id))
    | .ok other => .error (.UnexpectedValue
        ("Or: expected Coll[Boolean], got " ++ valueDebug other))
    | .error e => .error e
  | .Upcast input tpe =>
    match eval input with
    | .ok input_v =>
      match tpe with
      | .SBigInt => upcast_to_bigint input_v
      | .SLong => upcast_to_long input_v
      | .SInt => upcast_to_int input_v
      | .SShort => upcast_to_short input_v
      | .SByte => upcast_to_byte input_v
      | _ => .error (.UnexpectedValue
          ("Upcast: expected numeric value, got " ++ valueDebug input_v))
    | .error e => .error e
  | .MethodCall _ _ _ => .error (.UnexpectedValue "MethodCall: unresolved method")

/-- `impl From<bool> for Constant` from `ast/constant.rs`. -/
def Constant.from_bool (v : Bool) : Constant := ⟨SType.SBoolean, Value.Boolean v⟩

/-- `impl From<i8> for Constant` from `ast/constant.rs`. -/
def Constant.from_i8 (v : Int) : Constant := ⟨SType.SByte, Value.Byte v⟩

/-- `impl From<i16> for Constant` from `ast/constant.rs`. -/
def Constant.from_i16 (v : Int) : Constant := ⟨SType.SShort, Value.Short v⟩

/-- `impl From<i32> for Constant` from `ast/constant.rs`. -/
def Constant.from_i32 (v : Int) : Constant := ⟨SType.SInt, Value.Int v⟩

/-- `impl From<i64> for Constant` from `ast/constant.rs`. -/
def Constant.from_i64 (v : Int) : Constant := ⟨SType.SLong, Value.Long v⟩

/-- `impl From<Vec<u8>> for Constant` from `ast/constant.rs`: type
`SColl(SByte)`, each byte stored as its two's-complement reinterpretation
`b as i8`. -/
def Constant.from_vec_u8 (v : List Nat) : Constant :=
  ⟨SType.SColl SType.SByte, Value.CollByte (v.map u8AsI8)⟩

/-- `impl From<Vec<i8>> for Constant` from `ast/constant.rs`. -/
def Constant.from_vec_i8 (v : List Int) : Constant :=
  ⟨SType.SColl SType.SByte, Value.CollByte v⟩

/-- The generic `impl From<Vec<T>> for Constant` from `ast/constant.rs`,
instantiated at the boolean element type (`StoredNonPrimitive`, modelled
from the spec's general collection representation). -/
def Constant.from_vec_bool (v : List Bool) : Constant :=
  ⟨SType.SColl SType.SBoolean, Value.CollBool v⟩

/-- `TryExtractFromError` from `ast/constant.rs`: a message naming the
expected and the actual shape. -/
structure TryExtractFromError where
  msg : String
deriving DecidableEq

/-- Modelled from the spec (`TryExtractFrom<Value> for bool` lives in
`mir/value.rs`, not under src/): extraction succeeds exactly on the
matching variant, otherwise reports expected vs. actual. -/
def boolTryExtractValue : Value → Except TryExtractFromError Bool
  | .Boolean b => .ok b
  | v => .error ⟨"expected bool, found " ++ valueDebug v⟩

/-- Modelled from the spec: `TryExtractFrom<Value> for i8`. -/
def i8TryExtractValue : Value → Except TryExtractFromError Int
  | .Byte v => .ok v
  | v => .error ⟨"expected i8, found " ++ valueDebug v⟩

/-- Modelled from the spec: `TryExtractFrom<Value> for i16`. -/
def i16TryExtractValue : Value → Except TryExtractFromError Int
  | .Short v => .ok v
  | v => .error ⟨"expected i16, found " ++ valueDebug v⟩

/-- Modelled from the spec: `TryExtractFrom<Value> for i32`. -/
def i32TryExtractValue : Value → Except TryExtractFromError Int
  | .Int v => .ok v
  | v => .error ⟨"expected i32, found " ++ valueDebug v⟩

/-- Modelled from the spec: `TryExtractFrom<Value> for i64`. -/
def i64TryExtractValue : Value → Except TryExtractFromError Int
  | .Long v => .ok v
  | v => .error ⟨"expected i64, found " ++ valueDebug v⟩

/-- Modelled from the spec: `TryExtractFrom<Value> for Vec<bool>`. -/
def vecBoolTryExtractValue : Value → Except TryExtractFromError (List Bool)
  | .CollBool l => .ok l
  | v => .error ⟨"expected Vec<bool>, found " ++ valueDebug v⟩

/-- The blanket `impl<T: TryExtractFrom<Value>> TryExtractFrom<Constant>`
from `ast/constant.rs`: unwrap the constant to its value and extract. -/
def boolTryExtract (c : Constant) : Except TryExtractFromError Bool :=
  boolTryExtractValue c.v

/-- Constant-level i8 extraction via the blanket impl in `ast/constant.rs`. -/
def i8TryExtract (c : Constant) : Except TryExtractFromError Int :=
  i8TryExtractValue c.v

/-- Constant-level i16 extraction via the blanket impl in `ast/constant.rs`. -/
def i16TryExtract (c : Constant) : Except TryExtractFromError Int :=
  i16TryExtractValue c.v

/-- Constant-level i32 extraction via the blanket impl in `ast/constant.rs`. -/
def i32TryExtract (c : Constant) : Except TryExtractFromError Int :=
  i32TryExtractValue c.v

/-- Constant-level i64 extraction via the blanket impl in `ast/constant.rs`. -/
def i64TryExtract (c : Constant) : Except TryExtractFromError Int :=
  i64TryExtractValue c.v

/-- Constant-level Vec<bool> extraction via the blanket impl in
`ast/constant.rs`. -/
def vecBoolTryExtract (c : Constant) : Except TryExtractFromError (List Bool) :=
  vecBoolTryExtractValue c.v

/-- `impl TryExtractFrom<Constant> for Vec<i8>` from `ast/constant.rs`:
succeeds exactly on a packed byte collection; the error formats
`std::any::type_name` with `{:?}`, which quotes the string. -/
def vecI8TryExtract (c : Constant) : Except TryExtractFromError (List Int) :=
  match c.v with
  | .CollByte bs => .ok bs
  | v => .error ⟨"expected \"alloc::vec::Vec<i8>\", found " ++ valueDebug v⟩

/-- `impl TryExtractFrom<Constant> for Vec<u8>` from `ast/constant.rs`:
extract as `Vec<i8>` then reinterpret each `i8` as a `u8`
(`Vec::<u8>::from_vec_i8`). -/
def vecU8TryExtract (c : Constant) : Except TryExtractFromError (List Nat) :=
  match vecI8TryExtract c with
  | .ok l => .ok (l.map i8AsU8)
  | .error e => .error e

/-- Lower-case hex digit of a nibble (the `base16` crate's alphabet). -/
def hexChar : Nat → Char
  | 0 => '0'
  | 1 => '1'
  | 2 => '2'
  | 3 => '3'
  | 4 => '4'
  | 5 => '5'
  | 6 => '6'
  | 7 => '7'
  | 8 => '8'
  | 9 => '9'
  | 10 => 'a'
  | 11 => 'b'
  | 12 => 'c'
  | 13 => 'd'
  | 14 => 'e'
  | _ => 'f'

/-- Value of a hex digit character, upper or lower case. -/
def hexDigit? (c : Char) : Option Nat :=
  if c = '0' then some 0 else if c = '1' then some 1
  else if c = '2' then some 2 else if c = '3' then some 3
  else if c = '4' then some 4 else if c = '5' then some 5
  else if c = '6' then some 6 else if c = '7' then some 7
  else if c = '8' then some 8 else if c = '9' then some 9
  else if c = 'a' ∨ c = 'A' then some 10 else if c = 'b' ∨ c = 'B' then some 11
  else if c = 'c' ∨ c = 'C' then some 12 else if c = 'd' ∨ c = 'D' then some 13
  else if c = 'e' ∨ c = 'E' then some 14 else if c = 'f' ∨ c = 'F' then some 15
  else none

/-- Modelled from the spec: base16 decoding of a character sequence, two
hex digits per byte; an odd-length or non-hex input is rejected (the
`base16` crate consumed by `Base16DecodedBytes` under src/). -/
def base16DecodePairs : List Char → Option (List Nat)
  | [] => some []
  | [_] => none
  | c1 :: c2 :: rest =>
    match hexDigit? c1, hexDigit? c2, base16DecodePairs rest with
    | some hi, some lo, some bs => some ((hi * 16 + lo) :: bs)
    | _, _, _ => none

/-- `Base16DecodedBytes::try_from` on a string (modelled from the spec). -/
def base16Decode (s : String) : Option (List Nat) := base16DecodePairs s.data

/-- Character sequence of the lower-case base16 encoding of a byte string. -/
def base16EncodeChars : List Nat → List Char
  | [] => []
  | b :: bs => hexChar (b / 16) :: hexChar (b % 16) :: base16EncodeChars bs

/-- `Base16EncodedBytes::new` (modelled from the spec): lower-case hex. -/
def base16Encode (bs : List Nat) : String := String.mk (base16EncodeChars bs)

theorem hexDigit?_hexChar : ∀ n, n < 16 → hexDigit? (hexChar n) = some n := by decide

theorem base16DecodePairs_encode (bs : List Nat) (h : ∀ b ∈ bs, b < 256) :
    base16DecodePairs (base16EncodeChars bs) = some bs := by
  induction bs with
  | nil => rfl
  | cons b rest ih =>
    have hb : b < 256 := h b (List.mem_cons_self b rest)
    have h1 : b / 16 < 16 := by omega
    have h2 : b % 16 < 16 := by omega
    have ihr := ih fun x hx => h x (List.mem_cons_of_mem b hx)
    simp only [base16EncodeChars, base16DecodePairs,
      hexDigit?_hexChar _ h1, hexDigit?_hexChar _ h2, ihr]
    have hsplit : b / 16 * 16 + b % 16 = b := by omega
    rw [hsplit]

/-- `ConstantParsingError` from `chain/json.rs`. -/
inductive ConstantParsingError where
  | DecodeError
  | DeserializationError (e : SerializationError)
deriving DecidableEq

/-- `impl FromStr for RichConstant` from `chain/json.rs`: base16-decode the
string, then `Constant::sigma_parse_bytes`; each failure is wrapped in the
corresponding `ConstantParsingError` variant. The rich constant's
`rawValue` field is the parsed constant. -/
def richConstantFromStr (s : String) : Except ConstantParsingError Constant :=
  match base16Decode s with
  | none => .error ConstantParsingError.DecodeError
  | some bs =>
    match Constant.sigma_parse_bytes bs with
    | .ok c => .ok c
    | .error e => .error (ConstantParsingError.DeserializationError e)

/-- The two JSON spellings accepted for a constant literal
(`constant_as_string_or_struct` in `chain/json.rs`): a bare string, or a
structured object whose single `rawValue` field carries the same string. -/
inductive ConstantJson where
  | str (s : String)
  | obj (rawValue : String)

/-- `constant_as_string_or_struct` from `chain/json.rs`: a string is routed
through `RichConstant::from_str` (its error replaced by the visitor's
custom message, whose braces are literal in the source); a map is routed
through `RichConstant`'s derived Deserialize, whose `rawValue` field uses
`TryFrom<Base16DecodedBytes>` — base16 decode, then
`Constant::sigma_parse_bytes`, each failure becoming a custom serde
error. -/
def constantHolderDecode : ConstantJson → Except String Constant
  | .str s =>
    match richConstantFromStr s with
    | .ok c => .ok c
    | .error _ => .error "error parsing constant from string: \x7bvalue\x7d"
  | .obj raw =>
    match base16Decode raw with
    | none => .error "Base16 decoding error"
    | some bs =>
      match Constant.sigma_parse_bytes bs with
      | .ok c => .ok c
      | .error _ => .error "Deserialization error"

/-- C1: serializing a validly constructed Expression node x (in particular
every And, Upcast and MethodCall node) with `sigma_serialize` and parsing
the produced bytes with `sigma_parse` yields a value equal to x:
decode(encode(x)) = x. -/
theorem c1_expr_codec_roundtrip (e : Expr) (h : exprOk e = true) :
    Expr.sigma_parse_bytes (Expr.sigma_serialize_bytes e) = Except.ok e := by
  unfold Expr.sigma_parse_bytes Expr.sigma_serialize_bytes
  have hd : exprDepth e ≤ (serExpr e).length + 1 :=
    Nat.le_trans (exprDepth_le_length e) (Nat.le_succ _)
  have hrt := parseExpr_serExpr e ((serExpr e).length + 1) [] h hd
  rw [List.append_nil] at hrt
  rw [hrt]

/-- A concrete validly constructed expression exercising Const, And,
Upcast and MethodCall at once. -/
def exprWitness : Expr :=
  Expr.MethodCall
    (Expr.And (Expr.Const ⟨SType.SColl SType.SBoolean, Value.CollBool [true, false]⟩))
    (SMethod.from_ids 101 1)
    [Expr.Upcast (Expr.Const ⟨SType.SInt, Value.Int 5⟩) SType.SLong]

/-- C1 witness: the round-trip law at a concrete expression. -/
theorem c1_expr_codec_roundtrip_witness :
    exprOk exprWitness = true ∧
      Expr.sigma_parse_bytes (Expr.sigma_serialize_bytes exprWitness) = Except.ok exprWitness :=
  ⟨by decide, c1_expr_codec_roundtrip exprWitness (by decide)⟩

/-- Formalization device for the widening chain: the five numeric widths. -/
inductive NumWidth where
  | Byte
  | Short
  | Int
  | Long
  | BigInt
deriving DecidableEq

/-- Position of a width in the chain Byte→Short→Int→Long→BigInt. -/
def NumWidth.rank : NumWidth → Nat
  | .Byte => 0
  | .Short => 1
  | .Int => 2
  | .Long => 3
  | .BigInt => 4

/-- The static type of a numeric width. -/
def NumWidth.stype : NumWidth → SType
  | .Byte => SType.SByte
  | .Short => SType.SShort
  | .Int => SType.SInt
  | .Long => SType.SLong
  | .BigInt => SType.SBigInt

/-- The runtime value holding integer `v` at a numeric width. -/
def NumWidth.mkValue : NumWidth → ℤ → Value
  | .Byte, v => Value.Byte v
  | .Short, v => Value.Short v
  | .Int, v => Value.Int v
  | .Long, v => Value.Long v
  | .BigInt, v => Value.BigInt v

/-- C2: evaluating Upcast of a numeric value of width W to a target width
W' that is W itself or any strictly larger width of the chain
Byte→Short→Int→Long→BigInt succeeds and carries the same integer: the
same-type upcast is the identity and widening is sign extension with no
value change. -/
theorem c2_upcast_widening_identity (W Wtarget : NumWidth) (v : Int)
    (h : W.rank ≤ Wtarget.rank) :
    eval (Expr.Upcast (Expr.Const ⟨W.stype, W.mkValue v⟩) Wtarget.stype)
      = Except.ok (Wtarget.mkValue v) := by
  cases W <;> cases Wtarget <;> first
    | rfl
    | exact absurd h (by decide)

/-- C2 witness: Byte-to-Long widening of 5 and the Long identity upcast. -/
theorem c2_upcast_widening_identity_witness :
    NumWidth.rank NumWidth.Byte ≤ NumWidth.rank NumWidth.Long ∧
      eval (Expr.Upcast (Expr.Const ⟨NumWidth.stype NumWidth.Byte,
          NumWidth.mkValue NumWidth.Byte 5⟩) (NumWidth.stype NumWidth.Long))
        = Except.ok (NumWidth.mkValue NumWidth.Long 5) :=
  ⟨by decide, c2_upcast_widening_identity NumWidth.Byte NumWidth.Long 5 (by decide)⟩

/-- C3 (code-bug exhibit): a non-widening upcast does fail with a typed
`UnexpectedValue` error and never returns a lossy value, but on the
BigInt-target path the message misnames the target: upcasting a Boolean to
BigInt produces "Upcast: cannot upcast Boolean(true) to Long" (the string
in `upcast_to_bigint` was copied from `upcast_to_long`), naming Long even
though the attempted target type is BigInt; a numeric narrowing such as
Long→Byte names source value and target correctly; a non-numeric target
omits the target type entirely. -/
theorem c3_upcast_error_exhibit :
    eval (Expr.Upcast (Expr.Const ⟨SType.SBoolean, Value.Boolean true⟩) SType.SBigInt)
      = Except.error (EvalError.UnexpectedValue "Upcast: cannot upcast Boolean(true) to Long")
    ∧ eval (Expr.Upcast (Expr.Const ⟨SType.SLong, Value.Long 300⟩) SType.SByte)
      = Except.error (EvalError.UnexpectedValue "Upcast: cannot upcast Long(300) to Byte")
    ∧ eval (Expr.Upcast (Expr.Const ⟨SType.SLong, Value.Long 300⟩) SType.SBoolean)
      = Except.error (EvalError.UnexpectedValue "Upcast: expected numeric value, got Long(300)") := by
  exact ⟨rfl, rfl, rfl⟩

/-- C4: for every host type with a defined lift, extracting at that type
from the lifted constant returns the original value exactly; extracting
from a constant whose value has a different shape fails with a typed
`TryExtractFromError` describing the expected and the actual shape, never
a silent default. -/
theorem c4_extraction_soundness :
    (∀ b : Bool, boolTryExtract (Constant.from_bool b) = Except.ok b)
    ∧ (∀ v : Int, i8TryExtract (Constant.from_i8 v) = Except.ok v)
    ∧ (∀ v : Int, i16TryExtract (Constant.from_i16 v) = Except.ok v)
    ∧ (∀ v : Int, i32TryExtract (Constant.from_i32 v) = Except.ok v)
    ∧ (∀ v : Int, i64TryExtract (Constant.from_i64 v) = Except.ok v)
    ∧ (∀ l : List Int, vecI8TryExtract (Constant.from_vec_i8 l) = Except.ok l)
    ∧ (∀ l : List Nat, (∀ b ∈ l, b < 256) →
        vecU8TryExtract (Constant.from_vec_u8 l) = Except.ok l)
    ∧ (∀ l : List Bool, vecBoolTryExtract (Constant.from_vec_bool l) = Except.ok l)
    ∧ (∀ c : Constant, shapeMatches SType.SBoolean c.v = false →
        boolTryExtract c = Except.error ⟨"expected bool, found " ++ valueDebug c.v⟩)
    ∧ (∀ c : Constant, shapeMatches SType.SByte c.v = false →
        i8TryExtract c = Except.error ⟨"expected i8, found " ++ valueDebug c.v⟩)
    ∧ (∀ c : Constant, shapeMatches SType.SShort c.v = false →
        i16TryExtract c = Except.error ⟨"expected i16, found " ++ valueDebug c.v⟩)
    ∧ (∀ c : Constant, shapeMatches SType.SInt c.v = false →
        i32TryExtract c = Except.error ⟨"expected i32, found " ++ valueDebug c.v⟩)
    ∧ (∀ c : Constant, shapeMatches SType.SLong c.v = false →
        i64TryExtract c = Except.error ⟨"expected i64, found " ++ valueDebug c.v⟩)
    ∧ (∀ c : Constant, shapeMatches (SType.SColl SType.SByte) c.v = false →
        vecI8TryExtract c
          = Except.error ⟨"expected \"alloc::vec::Vec<i8>\", found " ++ valueDebug c.v⟩)
    ∧ (∀ c : Constant, shapeMatches (SType.SColl SType.SByte) c.v = false →
        vecU8TryExtract c
          = Except.error ⟨"expected \"alloc::vec::Vec<i8>\", found " ++ valueDebug c.v⟩)
    ∧ (∀ c : Constant, shapeMatches (SType.SColl SType.SBoolean) c.v = false →
        vecBoolTryExtract c
          = Except.error ⟨"expected Vec<bool>, found " ++ valueDebug c.v⟩) := by
  refine ⟨fun b => rfl, fun v => rfl, fun v => rfl, fun v => rfl, fun v => rfl,
    fun l => rfl, ?_, fun l => rfl, ?_, ?_, ?_, ?_, ?_, ?_, ?_, ?_⟩
  · intro l h
    show Except.ok ((l.map u8AsI8).map i8AsU8) = Except.ok l
    have hmap : (l.map u8AsI8).map i8AsU8 = l := by
      rw [List.map_map]
      have hc : ∀ x ∈ l, (i8AsU8 ∘ u8AsI8) x = id x := fun x hx => i8AsU8_u8AsI8 x (h x hx)
      rw [List.map_congr_left hc, List.map_id]
    rw [hmap]
  all_goals
    intro c hm
  all_goals
    obtain ⟨t, v⟩ := c
  all_goals
    cases v <;> simp only [shapeMatches, decide_eq_false_iff_not] at hm <;>
      first
        | rfl
        | exact absurd trivial hm

/-- C4 witness: the unsigned-byte-vector round trip and a shape-mismatch
failure at concrete inputs. -/
theorem c4_extraction_soundness_witness :
    ((∀ b ∈ ([0, 127, 128, 255] : List Nat), b < 256)
      ∧ vecU8TryExtract (Constant.from_vec_u8 [0, 127, 128, 255])
          = Except.ok [0, 127, 128, 255])
    ∧ (shapeMatches SType.SBoolean (Constant.mk SType.SInt (Value.Int 7)).v = false
      ∧ boolTryExtract (Constant.mk SType.SInt (Value.Int 7))
          = Except.error ⟨"expected bool, found "
              ++ valueDebug (Constant.mk SType.SInt (Value.Int 7)).v⟩) :=
  ⟨⟨by decide, c4_extraction_soundness.2.2.2.2.2.2.1 [0, 127, 128, 255] (by decide)⟩,
    ⟨by decide, c4_extraction_soundness.2.2.2.2.2.2.2.2.1
      (Constant.mk SType.SInt (Value.Int 7)) (by decide)⟩⟩

/-- C5 (counterexample): `Constant`'s two fields are public in
`ast/constant.rs`, so a Constant whose declared type its value's shape
cannot satisfy is constructible: the pair (SBoolean, Int 0) is a
`Constant` and its type does not structurally match its value. -/
theorem c5_mismatched_constant_constructible :
    shapeMatches (Constant.mk SType.SBoolean (Value.Int 0)).tpe
      (Constant.mk SType.SBoolean (Value.Int 0)).v = false := rfl

/-- C5 (amended): every `From` lift provided by `ast/constant.rs` produces
a Constant whose declared type structurally matches its value's variant;
the struct itself, having public fields, does not reject mismatched pairs. -/
theorem c5_lifts_produce_matching_types :
    (∀ b : Bool, shapeMatches (Constant.from_bool b).tpe (Constant.from_bool b).v = true)
    ∧ (∀ v : Int, shapeMatches (Constant.from_i8 v).tpe (Constant.from_i8 v).v = true)
    ∧ (∀ v : Int, shapeMatches (Constant.from_i16 v).tpe (Constant.from_i16 v).v = true)
    ∧ (∀ v : Int, shapeMatches (Constant.from_i32 v).tpe (Constant.from_i32 v).v = true)
    ∧ (∀ v : Int, shapeMatches (Constant.from_i64 v).tpe (Constant.from_i64 v).v = true)
    ∧ (∀ l : List Nat, shapeMatches (Constant.from_vec_u8 l).tpe (Constant.from_vec_u8 l).v = true)
    ∧ (∀ l : List Int, shapeMatches (Constant.from_vec_i8 l).tpe (Constant.from_vec_i8 l).v = true)
    ∧ (∀ l : List Bool, shapeMatches (Constant.from_vec_bool l).tpe (Constant.from_vec_bool l).v = true) :=
  ⟨fun b => rfl, fun v => rfl, fun v => rfl, fun v => rfl, fun v => rfl,
    fun l => rfl, fun l => rfl, fun l => rfl⟩

/-- The boolean-collection constant fed to the reducers. -/
def boolCollConst (l : List Bool) : Expr :=
  Expr.Const ⟨SType.SColl SType.SBoolean, Value.CollBool l⟩

/-- C8: evaluating And over a boolean collection is true iff all elements
are true, Or iff at least one is; the empty collection yields the
respective identity (And [] = true, Or [] = false); and the outcome is
decided at the first false (resp. true) — whatever follows it cannot
change the result. -/
theorem c8_boolean_reducers :
    (∀ l : List Bool, (eval (Expr.And (boolCollConst l)) = Except.ok (Value.Boolean true)
        ↔ ∀ b ∈ l, b = true))
    ∧ (∀ l : List Bool, (eval (Expr.Or (boolCollConst l)) = Except.ok (Value.Boolean true)
        ↔ ∃ b ∈ l, b = true))
    ∧ eval (Expr.And (boolCollConst [])) = Except.ok (Value.Boolean true)
    ∧ eval (Expr.Or (boolCollConst [])) = Except.ok (Value.Boolean false)
    ∧ (∀ l1 l2 : List Bool,
        eval (Expr.And (boolCollConst (l1 ++ false :: l2))) = Except.ok (Value.Boolean false))
    ∧ (∀ l1 l2 : List Bool,
        eval (Expr.Or (boolCollConst (l1 ++ true :: l2))) = Except.ok (Value.Boolean true)) := by
  refine ⟨?_, ?_, rfl, rfl, ?_, ?_⟩
  · intro l
    simp [eval, boolCollConst, List.all_eq_true]
  · intro l
    simp [eval, boolCollConst, List.any_eq_true]
  · intro l1 l2
    simp [eval, boolCollConst]
  · intro l1 l2
    simp [eval, boolCollConst]

/-- C10: the unsigned byte-vector lift declares the same type as the
signed lift, `SColl(SByte)`, storing each byte as its two's-complement
reinterpretation `b as i8`, and extracting `Vec<u8>` inverts the
reinterpretation, returning the original bytes. -/
theorem c10_vec_u8_lift_roundtrip (l : List Nat) (h : ∀ b ∈ l, b < 256) :
    (Constant.from_vec_u8 l).tpe = SType.SColl SType.SByte
    ∧ (Constant.from_vec_u8 l).tpe = (Constant.from_vec_i8 (l.map u8AsI8)).tpe
    ∧ (Constant.from_vec_u8 l).v = Value.CollByte (l.map u8AsI8)
    ∧ vecU8TryExtract (Constant.from_vec_u8 l) = Except.ok l := by
  refine ⟨rfl, rfl, rfl, ?_⟩
  show Except.ok ((l.map u8AsI8).map i8AsU8) = Except.ok l
  have hmap : (l.map u8AsI8).map i8AsU8 = l := by
    rw [List.map_map]
    have hc : ∀ x ∈ l, (i8AsU8 ∘ u8AsI8) x = id x := fun x hx => i8AsU8_u8AsI8 x (h x hx)
    rw [List.map_congr_left hc, List.map_id]
  rw [hmap]

/-- C10 witness: the reinterpreting round trip at a concrete byte
vector containing bytes from both halves of the range. -/
theorem c10_vec_u8_lift_roundtrip_witness :
    (Constant.from_vec_u8 [0, 255]).tpe = SType.SColl SType.SByte
    ∧ vecU8TryExtract (Constant.from_vec_u8 [0, 255]) = Except.ok [0, 255] :=
  ⟨(c10_vec_u8_lift_roundtrip [0, 255] (by decide)).1,
    (c10_vec_u8_lift_roundtrip [0, 255] (by decide)).2.2.2⟩

/-- C6: the register/constant payload "0" — a single character that is not
a hex pair — fails to decode with a typed error (a base16 `DecodeError`);
and the constant decode path is total: on every string and every byte
sequence it yields either a value or a typed error. -/
theorem c6_malformed_payload_rejected :
    richConstantFromStr "0" = Except.error ConstantParsingError.DecodeError
    ∧ (∀ s : String, (∃ c, richConstantFromStr s = Except.ok c)
        ∨ (∃ e, richConstantFromStr s = Except.error e))
    ∧ (∀ bs : List Nat, (∃ c, Constant.sigma_parse_bytes bs = Except.ok c)
        ∨ (∃ e, Constant.sigma_parse_bytes bs = Except.error e)) := by
  refine ⟨rfl, ?_, ?_⟩
  · intro s
    cases richConstantFromStr s with
    | ok c => exact Or.inl ⟨c, rfl⟩
    | error e => exact Or.inr ⟨e, rfl⟩
  · intro bs
    cases Constant.sigma_parse_bytes bs with
    | ok c => exact Or.inl ⟨c, rfl⟩
    | error e => exact Or.inr ⟨e, rfl⟩

/-- C7: for a constant with canonical binary encoding e, both the bare hex
string of e and the structured object carrying that hex under its single
`rawValue` field decode successfully to that same Constant; and on every
input string the two spellings agree on the decoded value. -/
theorem c7_both_literal_spellings (c : Constant) (h : constWF c = true) :
    constantHolderDecode (ConstantJson.str (base16Encode (Constant.sigma_serialize_bytes c)))
      = Except.ok c
    ∧ constantHolderDecode (ConstantJson.obj (base16Encode (Constant.sigma_serialize_bytes c)))
      = Except.ok c
    ∧ (∀ s : String, (constantHolderDecode (ConstantJson.str s)).toOption
        = (constantHolderDecode (ConstantJson.obj s)).toOption) := by
  have hdec : base16Decode (base16Encode (serConstant c)) = some (serConstant c) := by
    unfold base16Decode base16Encode
    show base16DecodePairs (base16EncodeChars (serConstant c)) = some (serConstant c)
    exact base16DecodePairs_encode _ (serConstant_lt c)
  have hparse : Constant.sigma_parse_bytes (serConstant c) = Except.ok c := by
    unfold Constant.sigma_parse_bytes
    have hp := parseConstant_serConstant c [] h
    rw [List.append_nil] at hp
    rw [hp]
  have hrich : richConstantFromStr (base16Encode (serConstant c)) = Except.ok c := by
    unfold richConstantFromStr
    simp only [hdec, hparse]
  refine ⟨?_, ?_, ?_⟩
  · simp only [Constant.sigma_serialize_bytes, constantHolderDecode, hrich]
  · simp only [Constant.sigma_serialize_bytes, constantHolderDecode, hdec, hparse]
  · intro s
    simp only [constantHolderDecode, richConstantFromStr, base16Decode]
    cases base16DecodePairs s.data with
    | none => rfl
    | some bs =>
      dsimp only
      cases Constant.sigma_parse_bytes bs with
      | ok c2 => rfl
      | error e => rfl

/-- C7 witness: both spellings of the canonical encoding of the Int
constant 5 decode to it. -/
theorem c7_both_literal_spellings_witness :
    constantHolderDecode (ConstantJson.str
        (base16Encode (Constant.sigma_serialize_bytes (Constant.from_i32 5))))
      = Except.ok (Constant.from_i32 5)
    ∧ constantHolderDecode (ConstantJson.obj
        (base16Encode (Constant.sigma_serialize_bytes (Constant.from_i32 5))))
      = Except.ok (Constant.from_i32 5) :=
  ⟨(c7_both_literal_spellings (Constant.from_i32 5) (by decide)).1,
    (c7_both_literal_spellings (Constant.from_i32 5) (by decide)).2.1⟩

/-- C9: the wire encoding of a MethodCall carries the method only as the
(owner type id, method id) pair — the method's signature is not written:
encodings of MethodCalls differing only in the method's type are
byte-identical, and decoding yields a node with the same obj and args
whose method (hence reported result type) is exactly
`SMethod::from_ids(type_id, method_id)`. -/
theorem c9_methodcall_wire_format (obj : Expr) (m : SMethod) (args : List Expr)
    (hobj : exprOk obj = true) (hargs : exprOkList args = true)
    (ht : m.typeId < 256) (hmid : m.methodId < 256) :
    Expr.sigma_parse_bytes (Expr.sigma_serialize_bytes (Expr.MethodCall obj m args))
      = Except.ok (Expr.MethodCall obj (SMethod.from_ids m.typeId m.methodId) args)
    ∧ (∀ tpe1 tpe2 : SType,
        Expr.sigma_serialize_bytes (Expr.MethodCall obj ⟨m.typeId, m.methodId, tpe1⟩ args)
          = Expr.sigma_serialize_bytes (Expr.MethodCall obj ⟨m.typeId, m.methodId, tpe2⟩ args)) := by
  constructor
  · unfold Expr.sigma_parse_bytes Expr.sigma_serialize_bytes
    have hlen_obj : exprDepth obj ≤ (serExpr (Expr.MethodCall obj m args)).length := by
      have h1 := exprDepth_le_length obj
      simp only [serExpr, List.length_cons, List.length_append]
      omega
    have hlen_args : exprDepthList args ≤ (serExpr (Expr.MethodCall obj m args)).length := by
      have h2 := exprDepthList_le_length args
      simp only [serExpr, List.length_cons, List.length_append]
      omega
    have h1 : ∀ r, parseExpr (serExpr (Expr.MethodCall obj m args)).length (serExpr obj ++ r)
        = some (obj, r) :=
      fun r => parseExpr_serExpr obj _ r hobj hlen_obj
    have h2 : ∀ r, parseExprN (serExpr (Expr.MethodCall obj m args)).length args.length
        (serExprList args ++ r) = some (args, r) :=
      fun r => parseExprN_serExprList args _ r hargs hlen_args
    have hstep := parseExpr_mc_step obj m args (serExpr (Expr.MethodCall obj m args)).length
      [] h1 h2 ht hmid
    rw [List.append_nil] at hstep
    rw [hstep]
  · intro tpe1 tpe2
    simp only [Expr.sigma_serialize_bytes, serExpr]

/-- C9 witness: a MethodCall whose ids (99, 7) are not in the method table
round-trips to the table's resolution of those ids, and its encoding does
not depend on the method's declared signature type. -/
theorem c9_methodcall_wire_format_witness :
    Expr.sigma_parse_bytes (Expr.sigma_serialize_bytes
        (Expr.MethodCall (Expr.Const ⟨SType.SBoolean, Value.Boolean true⟩)
          ⟨99, 7, SType.SLong⟩ []))
      = Except.ok (Expr.MethodCall (Expr.Const ⟨SType.SBoolean, Value.Boolean true⟩)
          (SMethod.from_ids 99 7) [])
    ∧ Expr.sigma_serialize_bytes (Expr.MethodCall
          (Expr.Const ⟨SType.SBoolean, Value.Boolean true⟩) ⟨99, 7, SType.SLong⟩ [])
      = Expr.sigma_serialize_bytes (Expr.MethodCall
          (Expr.Const ⟨SType.SBoolean, Value.Boolean true⟩) ⟨99, 7, SType.SInt⟩ []) :=
  ⟨(c9_methodcall_wire_format (Expr.Const ⟨SType.SBoolean, Value.Boolean true⟩)
      ⟨99, 7, SType.SLong⟩ [] (by decide) (by decide) (by decide) (by decide)).1,
    (c9_methodcall_wire_format (Expr.Const ⟨SType.SBoolean, Value.Boolean true⟩)
      ⟨99, 7, SType.SLong⟩ [] (by decide) (by decide) (by decide) (by decide)).2
      SType.SLong SType.SInt⟩
